import Mathlib

/-!
Verification development for the zarrs storage-engine snapshot.

The Rust sources embedded here:
- src/storage/store/http.rs        (HTTP store: get, get_impl, get_impl_err, get_partial_values)
- src/storage/storage_handle.rs    (StorageHandle pass-through)
- src/config.rs                    (global configuration defaults)
- src/array/codec/array_to_array/bitround/bitround_codec.rs (bitround codec)
- zarrs/tests/array_partial_encode.rs (sharding partial-encode scenarios; the
  sharding codec itself is not among the given sources and is modelled from the spec)

Network effects are embedded by passing the HTTP responses as explicit oracle
arguments: an oracle maps a request (key and requested byte ranges) to the
response the server produced, and a size oracle gives the content-length
answered to the HEAD request issued by size_key. With the responses fixed,
every store operation is a pure function of its inputs.
-/

/-- Byte ranges, as in the spec data model (section 3). The file byte_range.rs
is not among the given sources; the variants and resolution rules follow the
spec: FromStart(o, None) resolves to [o, n), FromStart(o, Some l) to [o, o+l),
FromEnd(s) to [n-s, n). -/
inductive ByteRange where
  | fromStart (offset : Nat) (length : Option Nat)
  | fromEnd (length : Nat)
  deriving DecidableEq, Repr

/-- Resolved start of a byte range against a total size. Modelled from the
spec, section 3 and section 4.1. -/
def ByteRange.start (r : ByteRange) (size : Nat) : Nat :=
  match r with
  | .fromStart offset _ => offset
  | .fromEnd length => size - length

/-- Resolved exclusive end of a byte range against a total size. Modelled from
the spec, section 3 and section 4.1. -/
def ByteRange.endPos (r : ByteRange) (size : Nat) : Nat :=
  match r with
  | .fromStart _ none => size
  | .fromStart offset (some length) => offset + length
  | .fromEnd _ => size

/-- Resolved length of a byte range against a total size: end minus start
(spec section 8, property 8). -/
def ByteRange.length (r : ByteRange) (size : Nat) : Nat :=
  ByteRange.endPos r size - ByteRange.start r size

/-- The storage error taxonomy (spec section 6; matches the variants used by
src/storage/store/http.rs). -/
inductive StorageError where
  | keyNotFound (key : String)
  | invalidByteRange
  | unsupported (msg : String)
  | other (msg : String)
  deriving DecidableEq, Repr

/-- Display string of a storage error; stands for the Display impl used by
err.to_string() in get_impl_err. The exact text is irrelevant to the claims. -/
def storageErrorMessage : StorageError → String
  | .keyNotFound key => "key " ++ key ++ " not found"
  | .invalidByteRange => "invalid byte range"
  | .unsupported msg => msg
  | .other msg => msg

/-- The per-range error produced by get_impl_err from the single error of the
batched request: KeyNotFound is cloned, any other error is rebuilt from its
display string (http.rs lines 144-149). -/
def cloneStorageError : StorageError → StorageError
  | .keyNotFound key => .keyNotFound key
  | e => .other (storageErrorMessage e)

/-- An HTTP response: status code and body bytes. -/
structure HttpResponse where
  status : Nat
  body : List Nat
  deriving DecidableEq, Repr

/-- Sequentially split a byte buffer into pieces of the given lengths,
mirroring the repeated bytes.split_to calls in the 206 branch of get_impl. -/
def splitTo : List Nat → List Nat → List (List Nat)
  | _, [] => []
  | bytes, l :: ls => bytes.take l :: splitTo (bytes.drop l) ls

/-- HTTPStore::get_impl (http.rs lines 78-134). The oracle gives the response
the server sent for the ranged GET on this key; sizeOracle gives the
content-length obtained by size_key via HEAD. Status 404 maps to KeyNotFound;
status 206 accepts the body only when its length equals the sum of the
requested range lengths and then splits it sequentially; status 200 slices the
full body locally per range; any other status is an error. The Rust 200 branch
indexes bytes[start..end], which panics when out of bounds; the theorems about
this branch therefore carry in-bounds hypotheses. -/
def getImpl (oracle : String → List ByteRange → HttpResponse)
    (sizeOracle : String → Nat) (key : String) (byteRanges : List ByteRange) :
    Except StorageError (List (List Nat)) :=
  let size := sizeOracle key
  let response := oracle key byteRanges
  if response.status = 404 then
    Except.error (StorageError.keyNotFound key)
  else if response.status = 206 then
    if response.body.length = (byteRanges.map (fun r => ByteRange.length r size)).sum then
      Except.ok (splitTo response.body (byteRanges.map (fun r => ByteRange.length r size)))
    else
      Except.error (StorageError.other
        "http partial content response did not include all requested byte ranges")
  else if response.status = 200 then
    Except.ok (byteRanges.map (fun r =>
      (response.body.drop (ByteRange.start r size)).take
        (ByteRange.endPos r size - ByteRange.start r size)))
  else
    Except.error (StorageError.other
      "the http server responded with an unexpected status for the byte range request")

/-- HTTPStore::get_impl_err (http.rs lines 136-151): one result per requested
range; on success each range gets its bytes, on failure every range gets a
clone of the one error. -/
def getImplErr (oracle : String → List ByteRange → HttpResponse)
    (sizeOracle : String → Nat) (key : String) (byteRanges : List ByteRange) :
    List (Except StorageError (List Nat)) :=
  match getImpl oracle sizeOracle key byteRanges with
  | .ok bytes => bytes.map Except.ok
  | .error err => (List.range byteRanges.length).map (fun _ => Except.error (cloneStorageError err))

/-- A (key, byte range) request, as in the store contract. -/
structure StoreKeyRange where
  key : String
  byteRange : ByteRange
  deriving DecidableEq, Repr

/-- The batched loop of HTTPStore::get_partial_values (http.rs lines 168-192):
consecutive requests for the same key accumulate into one group; when the key
changes the accumulated group is flushed through one get_impl_err call. The
accumulator lastKey and group model the last_key and byte_ranges_group locals,
with the invariant that group holds the pending ranges for lastKey. -/
def gpvLoop (oracle : String → List ByteRange → HttpResponse) (sizeOracle : String → Nat) :
    List StoreKeyRange → String → List ByteRange → List (Except StorageError (List Nat))
  | [], lastKey, group =>
      if group.isEmpty then [] else getImplErr oracle sizeOracle lastKey group
  | kr :: rest, lastKey, group =>
      if kr.key = lastKey then
        gpvLoop oracle sizeOracle rest lastKey (group ++ [kr.byteRange])
      else
        getImplErr oracle sizeOracle lastKey group ++
          gpvLoop oracle sizeOracle rest kr.key [kr.byteRange]

/-- HTTPStore::get_partial_values (http.rs lines 162-203). When
batchRangeRequests is true, consecutive ranges on one key are grouped into one
request; otherwise each range is requested on its own. In the non-batched
branch the Rust code removes element 0 of a get_impl_err result that always
has exactly one element; headD with an unreachable default models remove(0). -/
def getPartialValues (oracle : String → List ByteRange → HttpResponse)
    (sizeOracle : String → Nat) (batchRangeRequests : Bool)
    (keyRanges : List StoreKeyRange) : List (Except StorageError (List Nat)) :=
  if batchRangeRequests then
    match keyRanges with
    | [] => []
    | kr :: rest => gpvLoop oracle sizeOracle rest kr.key [kr.byteRange]
  else
    keyRanges.map (fun kr =>
      (getImplErr oracle sizeOracle kr.key [kr.byteRange]).headD
        (Except.error (StorageError.other "unreachable")))

/-- HTTPStore::get (http.rs lines 155-160): sends a plain GET and returns the
response body bytes without inspecting the status code. -/
def httpStoreGet (oracle : String → HttpResponse) (key : String) :
    Except StorageError (List Nat) :=
  Except.ok (oracle key).body

/-- MetadataConvertVersion (config.rs lines 96-101). -/
inductive MetadataConvertVersion where
  | default
  | v3
  deriving DecidableEq, Repr

/-- MetadataEraseVersion (config.rs lines 111-120). -/
inductive MetadataEraseVersion where
  | default
  | all
  | v3
  | v2
  deriving DecidableEq, Repr

/-- The global configuration record (config.rs lines 83-92). -/
structure Config where
  validateChecksums : Bool
  storeEmptyChunks : Bool
  codecConcurrentTarget : Nat
  chunkConcurrentMinimum : Nat
  experimentalCodecStoreMetadataIfEncodeOnly : Bool
  metadataConvertVersion : MetadataConvertVersion
  metadataEraseVersion : MetadataEraseVersion
  includeZarrsMetadata : Bool
  deriving DecidableEq, Repr

/-- Config::default (config.rs lines 129-146). The host parallelism returned
by std::thread::available_parallelism is an environment input, passed as the
argument; the code multiplies it by concurrency_multiply = 1 and adds
concurrency_add = 0. The global config is lazily initialised with exactly this
value on first access (config.rs lines 249-271). -/
def configDefault (availableParallelism : Nat) : Config :=
  { validateChecksums := true
    storeEmptyChunks := false
    codecConcurrentTarget := availableParallelism * 1 + 0
    chunkConcurrentMinimum := 4
    experimentalCodecStoreMetadataIfEncodeOnly := false
    metadataConvertVersion := MetadataConvertVersion.default
    metadataEraseVersion := MetadataEraseVersion.default
    includeZarrsMetadata := true }

/-- Config::set_experimental_codec_store_metadata_if_encode_only
(config.rs lines 204-210). -/
def setExperimentalCodecStoreMetadataIfEncodeOnly (c : Config) (enabled : Bool) : Config :=
  { c with experimentalCodecStoreMetadataIfEncodeOnly := enabled }

/-- The data type variants (glossary of the spec; the DataType enum of the
crate). -/
inductive DataType where
  | bool
  | int8
  | int16
  | int32
  | int64
  | uint8
  | uint16
  | uint32
  | uint64
  | float16
  | bfloat16
  | float32
  | float64
  | complex64
  | complex128
  | rawBits (size : Nat)
  deriving DecidableEq, Repr

/-- An array representation: shape, data type and fill value bytes. -/
structure ArrayRepresentation where
  shape : List Nat
  dataType : DataType
  fillValue : List Nat
  deriving DecidableEq, Repr

/-- Codec errors (spec section 7; the variants used by bitround_codec.rs). -/
inductive CodecError where
  | unsupportedDataType (dataType : DataType) (codecId : String)
  | other (msg : String)
  deriving DecidableEq, Repr

/-- Codec metadata; only its presence or absence matters to the claims. -/
structure Metadata where
  name : String
  deriving DecidableEq, Repr

/-- BitroundCodec (bitround_codec.rs lines 15-18). -/
structure BitroundCodec where
  keepbits : Nat
  deriving DecidableEq, Repr

/-- BitroundCodec::create_metadata (bitround_codec.rs lines 40-47): the body is
an unconditional None behind a FIXME comment; it does not consult the global
configuration. -/
def bitroundCreateMetadata (_c : BitroundCodec) : Option Metadata :=
  none

/-- BitroundCodec::encode (bitround_codec.rs lines 59-70): round_bytes mutates
the buffer in place and the mutated buffer is returned. round_bytes lives in a
sibling module that is not among the given sources, so it is abstracted as the
roundBytes argument, returning the mutated buffer or a codec error. -/
def bitroundEncode (roundBytes : List Nat → DataType → Nat → Except CodecError (List Nat))
    (c : BitroundCodec) (decodedValue : List Nat) (decodedRepresentation : ArrayRepresentation) :
    Except CodecError (List Nat) :=
  roundBytes decodedValue decodedRepresentation.dataType c.keepbits

/-- BitroundCodec::decode (bitround_codec.rs lines 72-78): returns the encoded
value unchanged. -/
def bitroundDecode (_c : BitroundCodec) (encodedValue : List Nat)
    (_decodedRepresentation : ArrayRepresentation) : Except CodecError (List Nat) :=
  Except.ok encodedValue

/-- BitroundCodec::compute_encoded_size (bitround_codec.rs lines 92-107). -/
def bitroundComputeEncodedSize (_c : BitroundCodec)
    (decodedRepresentation : ArrayRepresentation) :
    Except CodecError ArrayRepresentation :=
  match decodedRepresentation.dataType with
  | .float16 | .bfloat16 | .float32 | .float64 => Except.ok decodedRepresentation
  | dataType => Except.error (CodecError.unsupportedDataType dataType "bitround")

/-- The data types named by the claim as supported by bitround: float16,
bfloat16, float32 and float64. Stated from the claim wording, to be compared
with the match in bitroundComputeEncodedSize. -/
def bitroundSupportedDataType : DataType → Bool
  | .float16 => true
  | .bfloat16 => true
  | .float32 => true
  | .float64 => true
  | _ => false

/-- Directory listing result (keys at this level plus child prefixes). -/
structure StoreKeysPrefixes where
  keys : List String
  subPrefixes : List String

/-- A partial write instruction: overlay value at the given byte offset of the
key. -/
structure StoreKeyStartValue where
  key : String
  start : Nat
  value : List Nat

/-- The combined storage traits implemented and forwarded by StorageHandle
(storage_handle.rs): readable, listable, writable and readable-writable
operations, as records of functions. The mutex handle type is abstract. -/
structure Storage (M : Type) where
  get : String → Except StorageError (Option (List Nat))
  getPartialValuesKey : String → List ByteRange → Except StorageError (Option (List (List Nat)))
  getPartialValues : List StoreKeyRange → Except StorageError (List (Option (List Nat)))
  size : Unit → Except StorageError Nat
  sizePrefix : String → Except StorageError Nat
  sizeKey : String → Except StorageError (Option Nat)
  list : Unit → Except StorageError (List String)
  listPrefix : String → Except StorageError (List String)
  listDir : String → Except StorageError StoreKeysPrefixes
  set : String → List Nat → Except StorageError Unit
  setPartialValues : List StoreKeyStartValue → Except StorageError Unit
  erase : String → Except StorageError Unit
  eraseValues : List String → Except StorageError Unit
  erasePrefix : String → Except StorageError Unit
  mutex : String → Except StorageError M

/-- StorageHandle over a storage (storage_handle.rs lines 14-117): every trait
method calls the same method of the wrapped storage with the same arguments. -/
def storageHandle {M : Type} (s : Storage M) : Storage M :=
  { get := fun key => Storage.get s key
    getPartialValuesKey := fun key byteRanges => Storage.getPartialValuesKey s key byteRanges
    getPartialValues := fun keyRanges => Storage.getPartialValues s keyRanges
    size := fun u => Storage.size s u
    sizePrefix := fun p => Storage.sizePrefix s p
    sizeKey := fun key => Storage.sizeKey s key
    list := fun u => Storage.list s u
    listPrefix := fun p => Storage.listPrefix s p
    listDir := fun p => Storage.listDir s p
    set := fun key value => Storage.set s key value
    setPartialValues := fun keyStartValues => Storage.setPartialValues s keyStartValues
    erase := fun key => Storage.erase s key
    eraseValues := fun keys => Storage.eraseValues s keys
    erasePrefix := fun p => Storage.erasePrefix s p
    mutex := fun key => Storage.mutex s key }

/-- Modelled from the spec: the merge step of the sharding partial encode
(spec section 4.5, partial encode, step 2). The sharding codec implementation
is not among the given sources; this model is at the granularity of the test
configuration of zarrs/tests/array_partial_encode.rs, where every inner chunk
is a single element, so an inner chunk is either empty (None, all fill) or a
single non-fill element value (Some v). A written inner chunk whose merged
value equals fill is kept or made empty; otherwise it holds the written
value. -/
def mergeInner (current : List (Option Nat)) (fill : Nat) (subset : List (Nat × Nat)) :
    List (Option Nat) :=
  (List.range current.length).map (fun i =>
    match subset.lookup i with
    | some v => if v = fill then none else some v
    | none => current.getD i none)

/-- Modelled from the spec: the sharding partial encode of a subset of one
shard (spec section 4.5, partial encode, and the read and write accounting of
scenarios S1, S2, S4 and the test zarrs/tests/array_partial_encode.rs). The
store state for the shard key is None (absent) or the list of inner chunks.
Returns the new store state for the key, the number of ranged read batches and
the number of store writes. Reads: one for the index, plus one per non-empty
inner chunk overlapping the subset. If every merged inner chunk is empty the
key is erased with zero writes; otherwise every non-fill written inner chunk
is written plus one write for the index. -/
def shardingPartialEncode (store : Option (List (Option Nat))) (numInner fill : Nat)
    (subset : List (Nat × Nat)) : Option (List (Option Nat)) × Nat × Nat :=
  let current := store.getD (List.replicate numInner none)
  let reads := 1 + (subset.filter (fun p => (current.getD p.1 none).isSome)).length
  let merged := mergeInner current fill subset
  if merged.all Option.isNone then
    (none, reads, 0)
  else
    (some merged, reads, (subset.filter (fun p => decide (¬ p.2 = fill))).length + 1)

/-- The bytes served for one request of a (key, range) pair when the server
answers with the full resource body: the slice of that body resolved against
the content length of the key. -/
def sliceFullBody (fullBody : String → List Nat) (sizeOracle : String → Nat)
    (key : String) (r : ByteRange) : List Nat :=
  ((fullBody key).drop (ByteRange.start r (sizeOracle key))).take
    (ByteRange.endPos r (sizeOracle key) - ByteRange.start r (sizeOracle key))

theorem splitTo_length (ls : List Nat) : ∀ (bytes : List Nat),
    (splitTo bytes ls).length = ls.length := by
  induction ls with
  | nil => intro bytes; rfl
  | cons l ls ih => intro bytes; simp [splitTo, ih]

theorem splitTo_getElem? (ls : List Nat) : ∀ (bytes : List Nat) (i : Nat),
    (splitTo bytes ls)[i]? =
      (ls[i]?).map (fun l => (bytes.drop ((ls.take i).sum)).take l) := by
  induction ls with
  | nil => intro bytes i; simp [splitTo]
  | cons l ls ih =>
      intro bytes i
      cases i with
      | zero => simp [splitTo]
      | succ i => simp [splitTo, ih (bytes.drop l) i, List.drop_drop]

theorem getImpl_ok_length (oracle : String → List ByteRange → HttpResponse)
    (sizeOracle : String → Nat) (key : String) (byteRanges : List ByteRange)
    (bs : List (List Nat)) (h : getImpl oracle sizeOracle key byteRanges = Except.ok bs) :
    bs.length = byteRanges.length := by
  simp only [getImpl] at h
  split at h
  · exact absurd h (by simp)
  · split at h
    · split at h
      · rw [Except.ok.injEq] at h
        subst h
        rw [splitTo_length, List.length_map]
      · exact absurd h (by simp)
    · split at h
      · rw [Except.ok.injEq] at h
        subst h
        rw [List.length_map]
      · exact absurd h (by simp)

theorem getImplErr_length (oracle : String → List ByteRange → HttpResponse)
    (sizeOracle : String → Nat) (key : String) (byteRanges : List ByteRange) :
    (getImplErr oracle sizeOracle key byteRanges).length = byteRanges.length := by
  unfold getImplErr
  split
  · rename_i bs h
    rw [List.length_map]
    exact getImpl_ok_length oracle sizeOracle key byteRanges bs h
  · rw [List.length_map, List.length_range]

theorem gpvLoop_length (oracle : String → List ByteRange → HttpResponse)
    (sizeOracle : String → Nat) :
    ∀ (rest : List StoreKeyRange) (lastKey : String) (group : List ByteRange),
    (gpvLoop oracle sizeOracle rest lastKey group).length = group.length + rest.length := by
  intro rest
  induction rest with
  | nil =>
      intro lastKey group
      cases group with
      | nil => rfl
      | cons g gs => simp [gpvLoop, getImplErr_length]
  | cons kr rest ih =>
      intro lastKey group
      by_cases h : kr.key = lastKey
      · simp only [gpvLoop, if_pos h, ih]
        simp
        omega
      · simp only [gpvLoop, if_neg h, List.length_append, getImplErr_length, ih]
        simp
        omega

theorem getImpl_oracle200 (fullBody : String → List Nat) (sizeOracle : String → Nat)
    (key : String) (byteRanges : List ByteRange) :
    getImpl (fun k _ => ⟨200, fullBody k⟩) sizeOracle key byteRanges =
      Except.ok (byteRanges.map (sliceFullBody fullBody sizeOracle key)) := by
  rfl

theorem getImplErr_oracle200 (fullBody : String → List Nat) (sizeOracle : String → Nat)
    (key : String) (byteRanges : List ByteRange) :
    getImplErr (fun k _ => ⟨200, fullBody k⟩) sizeOracle key byteRanges =
      byteRanges.map (fun r => Except.ok (sliceFullBody fullBody sizeOracle key r)) := by
  unfold getImplErr
  rw [getImpl_oracle200]
  simp [List.map_map, Function.comp]

theorem gpvLoop_oracle200 (fullBody : String → List Nat) (sizeOracle : String → Nat) :
    ∀ (rest : List StoreKeyRange) (lastKey : String) (group : List ByteRange),
    gpvLoop (fun k _ => ⟨200, fullBody k⟩) sizeOracle rest lastKey group =
      group.map (fun r => Except.ok (sliceFullBody fullBody sizeOracle lastKey r)) ++
        rest.map (fun kr => Except.ok (sliceFullBody fullBody sizeOracle kr.key kr.byteRange)) := by
  intro rest
  induction rest with
  | nil =>
      intro lastKey group
      cases group with
      | nil => rfl
      | cons g gs => simp [gpvLoop, getImplErr_oracle200]
  | cons kr rest ih =>
      intro lastKey group
      by_cases h : kr.key = lastKey
      · simp only [gpvLoop, if_pos h, ih, List.map_append, List.map_cons, List.map_nil,
          List.append_assoc, List.singleton_append, h]
        simp
      · simp only [gpvLoop, if_neg h, ih, getImplErr_oracle200, List.map_cons,
          List.append_assoc, List.singleton_append]
        simp

/-- C1: the claim says BitroundCodec::create_metadata returns Some iff the
experimental_codec_store_metadata_if_encode_only flag is true. In the code the
body of create_metadata is an unconditional None behind a FIXME comment and
never consults the configuration, even though the configuration documentation
states that the option affects the bitround codec: for every codec, and with
the flag explicitly enabled in a default configuration, create_metadata still
returns none. -/
theorem c1BitroundCreateMetadataAlwaysNone :
    ∀ (keepbits availableParallelism : Nat),
      bitroundCreateMetadata ⟨keepbits⟩ = none ∧
      (setExperimentalCodecStoreMetadataIfEncodeOnly
          (configDefault availableParallelism) true).experimentalCodecStoreMetadataIfEncodeOnly
        = true := by
  intro _ _
  exact ⟨rfl, rfl⟩

/-- C3: the claim says every HTTP store read signals absence on a 404 response
and never returns the bytes of an error response body. get_impl does map 404
to KeyNotFound, but HTTPStore::get returns the response body without checking
the status: at a 404 response carrying an error page body, get returns that
body as the value of the key. -/
theorem c3HttpGetReturnsBodyOf404 :
    httpStoreGet (fun _ => ⟨404, [60, 104, 116, 109, 108, 62]⟩) "c/0/0" =
      Except.ok [60, 104, 116, 109, 108, 62] ∧
    getImpl (fun _ _ => ⟨404, [60, 104, 116, 109, 108, 62]⟩) (fun _ => 6) "c/0/0"
        [ByteRange.fromStart 0 (some 6)] =
      Except.error (StorageError.keyNotFound "c/0/0") :=
  ⟨rfl, rfl⟩

/-- C5: the global configuration is initialised with the documented defaults:
validate_checksums true, store_empty_chunks false, codec_concurrent_target the
host available parallelism, chunk_concurrent_minimum 4,
experimental_codec_store_metadata_if_encode_only false, include_zarrs_metadata
true, for every host parallelism value. -/
theorem c5ConfigDefaults :
    ∀ (availableParallelism : Nat),
      (configDefault availableParallelism).validateChecksums = true ∧
      (configDefault availableParallelism).storeEmptyChunks = false ∧
      (configDefault availableParallelism).codecConcurrentTarget = availableParallelism ∧
      (configDefault availableParallelism).chunkConcurrentMinimum = 4 ∧
      (configDefault availableParallelism).experimentalCodecStoreMetadataIfEncodeOnly = false ∧
      (configDefault availableParallelism).includeZarrsMetadata = true := by
  intro p
  refine ⟨rfl, rfl, ?_, rfl, rfl, rfl⟩
  simp [configDefault]

/-- C6: BitroundCodec::compute_encoded_size returns the input representation
unchanged exactly when the data type is float16, bfloat16, float32 or float64,
and fails with UnsupportedDataType of the data type and the codec id bitround
for every other data type. -/
theorem c6BitroundComputeEncodedSize :
    ∀ (c : BitroundCodec) (rep : ArrayRepresentation),
      bitroundComputeEncodedSize c rep =
        if bitroundSupportedDataType rep.dataType then Except.ok rep
        else Except.error (CodecError.unsupportedDataType rep.dataType "bitround") := by
  intro c rep
  obtain ⟨shape, dt, fv⟩ := rep
  cases dt <;> rfl

/-- C9: BitroundCodec::decode returns its input unchanged and never fails, for
every input buffer and representation; consequently decoding after encoding
equals encoding alone, for every rounding function, so all information loss of
the bitround codec happens in encode. -/
theorem c9BitroundDecodeIdentity :
    ∀ (roundBytes : List Nat → DataType → Nat → Except CodecError (List Nat))
      (c : BitroundCodec) (value : List Nat) (rep : ArrayRepresentation),
      bitroundDecode c value rep = Except.ok value ∧
      (bitroundEncode roundBytes c value rep).bind (fun y => bitroundDecode c y rep) =
        bitroundEncode roundBytes c value rep := by
  intro roundBytes c value rep
  refine ⟨rfl, ?_⟩
  cases h : bitroundEncode roundBytes c value rep <;> rfl

/-- C8: StorageHandle is a pure pass-through: every operation on the handle
returns exactly the result of the same operation with the same arguments on
the wrapped storage. -/
theorem c8StorageHandlePassThrough :
    ∀ {M : Type} (s : Storage M) (key p : String) (byteRanges : List ByteRange)
      (keyRanges : List StoreKeyRange) (value : List Nat)
      (keyStartValues : List StoreKeyStartValue) (keys : List String) (u : Unit),
      (storageHandle s).get key = s.get key ∧
      (storageHandle s).getPartialValuesKey key byteRanges = s.getPartialValuesKey key byteRanges ∧
      (storageHandle s).getPartialValues keyRanges = s.getPartialValues keyRanges ∧
      (storageHandle s).size u = s.size u ∧
      (storageHandle s).sizePrefix p = s.sizePrefix p ∧
      (storageHandle s).sizeKey key = s.sizeKey key ∧
      (storageHandle s).list u = s.list u ∧
      (storageHandle s).listPrefix p = s.listPrefix p ∧
      (storageHandle s).listDir p = s.listDir p ∧
      (storageHandle s).set key value = s.set key value ∧
      (storageHandle s).setPartialValues keyStartValues = s.setPartialValues keyStartValues ∧
      (storageHandle s).erase key = s.erase key ∧
      (storageHandle s).eraseValues keys = s.eraseValues keys ∧
      (storageHandle s).erasePrefix p = s.erasePrefix p ∧
      (storageHandle s).mutex key = s.mutex key := by
  intro M s key p byteRanges keyRanges value keyStartValues keys u
  exact ⟨rfl, rfl, rfl, rfl, rfl, rfl, rfl, rfl, rfl, rfl, rfl, rfl, rfl, rfl, rfl⟩

/-- C2: with sharding and experimental partial encoding, a write that makes
every element of a shard equal the fill value, overwriting the only non-fill
inner chunk with fill, erases the store key of the shard, performs exactly two
ranged reads (the index plus the one populated inner chunk) and performs zero
store writes, for every starting shard state with exactly one populated inner
chunk. -/
theorem c2ShardingOverwriteWithFillErasesKey
    (innerChunks : List (Option Nat)) (j v fill : Nat)
    (hj : innerChunks.getD j none = some v)
    (hothers : ∀ i, i < innerChunks.length → i ≠ j → innerChunks.getD i none = none) :
    shardingPartialEncode (some innerChunks) innerChunks.length fill [(j, fill)] =
      (none, 2, 0) := by
  have hj2 : (innerChunks[j]?).getD none = some v := by
    simpa [List.getD] using hj
  have hall : (mergeInner innerChunks fill [(j, fill)]).all Option.isNone = true := by
    rw [List.all_eq_true]
    intro x hx
    rw [mergeInner, List.mem_map] at hx
    obtain ⟨i, hi, hxeq⟩ := hx
    rw [List.mem_range] at hi
    subst hxeq
    by_cases hij : i = j
    · subst hij
      simp [List.lookup]
    · have h2 : (innerChunks[i]?).getD none = none := by
        simpa [List.getD] using hothers i hi hij
      have hb : (i == j) = false := by
        simp [hij]
      simp [List.lookup, hb, h2]
  simp only [shardingPartialEncode, Option.getD_some]
  rw [if_pos hall]
  simp [List.filter, List.getD, hj2]

/-- Witness for c2ShardingOverwriteWithFillErasesKey at the S1 state of the
test: one populated inner chunk holding 1 at index 0, fill 0; writing fill at
index 0 erases the key with two reads and zero writes. -/
theorem c2Witness :
    shardingPartialEncode (some [some 1, none, none, none]) 4 0 [(0, 0)] = (none, 2, 0) :=
  c2ShardingOverwriteWithFillErasesKey [some 1, none, none, none] 0 1 0 rfl (by decide)

/-- C4: when the server answers a batched ranged GET with status 200 and the
full resource body, the HTTP store slices the body locally: one buffer per
requested range, each equal to the slice from start to end of the range
resolved against the content length, in request order. The hypotheses state
that the response is a 200 whose body is the full resource and that each
range resolves within bounds (the Rust indexing panics otherwise). -/
theorem c4Http200FullBodyLocalSlice
    (oracle : String → List ByteRange → HttpResponse) (sizeOracle : String → Nat)
    (key : String) (byteRanges : List ByteRange)
    (h200 : (oracle key byteRanges).status = 200)
    (_hbody : (oracle key byteRanges).body.length = sizeOracle key)
    (hvalid : ∀ r ∈ byteRanges,
      ByteRange.start r (sizeOracle key) ≤ ByteRange.endPos r (sizeOracle key) ∧
      ByteRange.endPos r (sizeOracle key) ≤ sizeOracle key) :
    getImpl oracle sizeOracle key byteRanges =
      Except.ok (byteRanges.map (fun r =>
        ((oracle key byteRanges).body.take (ByteRange.endPos r (sizeOracle key))).drop
          (ByteRange.start r (sizeOracle key)))) := by
  have h1 : getImpl oracle sizeOracle key byteRanges =
      Except.ok (byteRanges.map (fun r =>
        ((oracle key byteRanges).body.drop (ByteRange.start r (sizeOracle key))).take
          (ByteRange.endPos r (sizeOracle key) - ByteRange.start r (sizeOracle key)))) := by
    simp [getImpl, h200]
  rw [h1]
  congr 1
  apply List.map_congr_left
  intro r hr
  rw [List.take_drop, Nat.add_sub_cancel' (hvalid r hr).1]

/-- Witness for c4Http200FullBodyLocalSlice: a 200 response with full body of
four bytes and content length four; the two requested ranges are sliced
locally in order. -/
theorem c4Witness :
    getImpl (fun _ _ => ⟨200, [10, 11, 12, 13]⟩) (fun _ => 4) "k"
        [ByteRange.fromStart 1 (some 2), ByteRange.fromEnd 1] =
      Except.ok [[11, 12], [13]] := by
  have h := c4Http200FullBodyLocalSlice (fun _ _ => ⟨200, [10, 11, 12, 13]⟩) (fun _ => 4) "k"
    [ByteRange.fromStart 1 (some 2), ByteRange.fromEnd 1] rfl rfl (by decide)
  exact h

/-- C7: HTTPStore::get_partial_values returns exactly one result per input
(key, byte range) pair, for every oracle, both with batching enabled and
disabled; and when every request is answered by a 200 with the full body of
the key, both modes return, in input order, exactly the local slice for each
request, so batching consecutive equal keys into one request preserves the
per-request correspondence. -/
theorem c7GetPartialValuesOneResultPerRequest :
    (∀ (oracle : String → List ByteRange → HttpResponse) (sizeOracle : String → Nat)
        (batch : Bool) (keyRanges : List StoreKeyRange),
      (getPartialValues oracle sizeOracle batch keyRanges).length = keyRanges.length) ∧
    (∀ (fullBody : String → List Nat) (sizeOracle : String → Nat) (batch : Bool)
        (keyRanges : List StoreKeyRange),
      getPartialValues (fun k _ => ⟨200, fullBody k⟩) sizeOracle batch keyRanges =
        keyRanges.map (fun kr =>
          Except.ok (sliceFullBody fullBody sizeOracle kr.key kr.byteRange))) := by
  constructor
  · intro oracle sizeOracle batch keyRanges
    cases batch with
    | false => simp [getPartialValues]
    | true =>
        cases keyRanges with
        | nil => rfl
        | cons kr rest =>
            simp [getPartialValues, gpvLoop_length]
            omega
  · intro fullBody sizeOracle batch keyRanges
    cases batch with
    | false =>
        simp only [getPartialValues, Bool.false_eq_true, if_false]
        apply List.map_congr_left
        intro kr _
        rw [getImplErr_oracle200]
        rfl
    | true =>
        cases keyRanges with
        | nil => rfl
        | cons kr rest =>
            simp only [getPartialValues, if_true]
            rw [gpvLoop_oracle200]
            simp

/-- C10: on a 206 partial content response, get_impl accepts the body only
when its length equals the exact sum of the resolved lengths of the requested
ranges, in which case it splits the body sequentially into one buffer per
range in request order, the piece for request i starting after the summed
lengths of the earlier requests; for any other body length it returns an
error rather than mis-sliced data. -/
theorem c10Http206ExactSumSplit
    (oracle : String → List ByteRange → HttpResponse) (sizeOracle : String → Nat)
    (key : String) (byteRanges : List ByteRange)
    (h206 : (oracle key byteRanges).status = 206) :
    ((oracle key byteRanges).body.length =
        (byteRanges.map (fun r => ByteRange.length r (sizeOracle key))).sum →
      getImpl oracle sizeOracle key byteRanges =
        Except.ok (splitTo (oracle key byteRanges).body
          (byteRanges.map (fun r => ByteRange.length r (sizeOracle key)))) ∧
      (splitTo (oracle key byteRanges).body
          (byteRanges.map (fun r => ByteRange.length r (sizeOracle key)))).length =
        byteRanges.length ∧
      (∀ i : Nat,
        (splitTo (oracle key byteRanges).body
            (byteRanges.map (fun r => ByteRange.length r (sizeOracle key))))[i]? =
          (byteRanges[i]?).map (fun r =>
            ((oracle key byteRanges).body.drop
              (((byteRanges.take i).map
                  (fun r => ByteRange.length r (sizeOracle key))).sum)).take
              (ByteRange.length r (sizeOracle key))))) ∧
    (¬ (oracle key byteRanges).body.length =
        (byteRanges.map (fun r => ByteRange.length r (sizeOracle key))).sum →
      getImpl oracle sizeOracle key byteRanges =
        Except.error (StorageError.other
          "http partial content response did not include all requested byte ranges")) := by
  constructor
  · intro hlen
    refine ⟨?_, ?_, ?_⟩
    · simp [getImpl, h206, hlen]
    · rw [splitTo_length, List.length_map]
    · intro i
      rw [splitTo_getElem?]
      simp only [List.getElem?_map, List.map_take, Option.map_map]
      rfl
  · intro hlen
    simp [getImpl, h206, hlen]

/-- Witness for c10Http206ExactSumSplit: a 206 response whose three body
bytes exactly cover the two requested ranges of lengths one and two; the body
is split sequentially into one buffer per range. -/
theorem c10Witness :
    getImpl (fun _ _ => ⟨206, [5, 6, 7]⟩) (fun _ => 10) "k"
        [ByteRange.fromStart 0 (some 1), ByteRange.fromStart 4 (some 2)] =
      Except.ok [[5], [6, 7]] := by
  have h := (c10Http206ExactSumSplit (fun _ _ => ⟨206, [5, 6, 7]⟩) (fun _ => 10) "k"
    [ByteRange.fromStart 0 (some 1), ByteRange.fromStart 4 (some 2)] rfl).1 (by decide)
  exact h.1
